import Mathlib

/-!
Verification of the fbref scouting-report scraper
(src/scouting_reports_scrape.py) against its specification.

The embedding models the report extraction and merge engine of
get_scouting_report plus the record-building and accumulation loop of
the main driver.  Machine-level collaborators (HTTP, HTML parsing) are
modelled at their observable boundary: a fetched document is a list of
div ids together with the list of tables that pandas read_html would
return for the page.  Table cells are carried as strings, which is what
the pipeline manipulates (the Percentile column is filtered with the
string predicate str.isdigit, and pandas to_json followed by json.loads
round-trips those strings unchanged).  Python exceptions are modelled
explicitly with an error type, because the driver catches ValueError
only; IndexError and KeyError abort the whole run.
-/

set_option autoImplicit false

namespace FbrefScrape

/-- Python exception kinds that the pipeline can raise.  read_html with no
tables raises ValueError; list indexing out of range raises IndexError;
a missing dict key raises KeyError.  The driver loop catches ValueError
only. -/
inductive PyErr where
  | valueError
  | indexError
  | keyError
deriving DecidableEq, Repr

/-- One row of a raw table as produced by pandas read_html after the header
has been collapsed: the Statistic, Per 90 and Percentile cells, each
possibly missing (NaN). -/
structure RawRow where
  statistic : Option String
  per90 : Option String
  percentile : Option String
deriving DecidableEq, Repr

/-- A table returned by pandas read_html together with whether its column
header is a two-level MultiIndex (the discriminator for percentile
tables). -/
structure RawTable where
  multiIndex : Bool
  rows : List RawRow
deriving DecidableEq, Repr

/-- A fetched and parsed scouting-report page: the ids of its div elements
(used by the position detection) and the tables pandas read_html would
extract from it. -/
structure Document where
  divIds : List String
  tables : List RawTable
deriving DecidableEq, Repr

/-- The per-statistic fields of one position table after extraction:
the Per 90 cell and the Percentile cell, both strings. -/
structure Entry where
  per90 : String
  percentile : String
deriving DecidableEq, Repr

/-- A position table after extraction and the to_json round trip:
an association list from statistic name to its fields, in row order. -/
abbrev PosTable := List (String × Entry)

/-- A merged statistic entry: the Per 90 value from the first table and
the per-position percentile mapping, in position order. -/
structure MergedEntry where
  per90 : String
  percentile : List (String × String)
deriving DecidableEq, Repr

/-- The value returned by get_scouting_report: merged data, detected
positions and the player id. -/
structure Report where
  data : List (String × MergedEntry)
  positions : List String
  id : String
deriving DecidableEq, Repr

/-- Python str.isdigit: true iff the string is nonempty and every
character is a digit.  Stated over the character list of the string. -/
def pyIsdigit (s : String) : Bool :=
  !s.data.isEmpty && s.data.all Char.isDigit

/-- Python dict insertion d[k] = v on a dict represented as an association
list: if the key is present its value is replaced in place, otherwise the
pair is appended. -/
def pyDictInsert {β : Type} (d : List (String × β)) (k : String) (v : β) :
    List (String × β) :=
  if ∃ kv ∈ d, kv.1 = k then
    d.map (fun kv => if kv.1 = k then (kv.1, v) else kv)
  else
    d ++ [(k, v)]

/-- Python dict lookup d[k] as an Option: the value of the first pair with
the given key. -/
def pyDictGet {β : Type} (d : List (String × β)) (k : String) : Option β :=
  match d with
  | [] => none
  | kv :: rest => if kv.1 = k then some kv.2 else pyDictGet rest k

/-- Helper of jsonLoads: fold the pairs into a dict in order. -/
def jsonLoadsAux (acc : List (String × Entry)) :
    List (String × Entry) → List (String × Entry)
  | [] => acc
  | kv :: rest => jsonLoadsAux (pyDictInsert acc kv.1 kv.2) rest

/-- json.loads applied to the JSON text that pandas to_json produced for a
transposed table: keys are inserted in order, a duplicate key keeps its
first position but receives the later value (Python dict semantics). -/
def jsonLoads (t : PosTable) : PosTable :=
  jsonLoadsAux [] t

/-- Helper of dropDuplicates carrying the set of rows already seen. -/
def dropDupsAux (seen : List RawRow) : List RawRow → List RawRow
  | [] => []
  | r :: rs =>
    if r ∈ seen then dropDupsAux seen rs
    else r :: dropDupsAux (r :: seen) rs

/-- pandas DataFrame.drop_duplicates: keep the first occurrence of each
exact-duplicate row. -/
def dropDuplicates (rows : List RawRow) : List RawRow :=
  dropDupsAux [] rows

/-- The per-table part of the extraction loop: drop duplicate rows, drop
rows with a missing cell (dropna), index by the Statistic column, keep
only rows whose Percentile cell is all digits and whose statistic is not
Passes Blocked, and transpose (df.T.to_json) into an association list
from statistic to fields. -/
def extractTable (t : RawTable) : PosTable :=
  (dropDuplicates t.rows).filterMap fun r =>
    match r.statistic, r.per90, r.percentile with
    | some s, some p90, some pct =>
      if pyIsdigit pct && s != "Passes Blocked" then
        some (s, ⟨p90, pct⟩)
      else
        none
    | _, _, _ => none

/-- The percentile_dfs list: every table whose header is a MultiIndex,
extracted, in document order. -/
def extractTables (tables : List RawTable) : List PosTable :=
  (tables.filter (fun t => t.multiIndex)).map extractTable

/-- pandas read_html: returns the tables of the page, raising ValueError
when the page contains no table. -/
def read_html (tables : List RawTable) : Except PyErr (List RawTable) :=
  if tables.isEmpty then .error .valueError else .ok tables

/-- The fixed position list of the source. -/
def pos_list : List String := ["GK", "CB", "FB", "MF", "AM", "FW"]

/-- The document contains a div block scoped to the percentile section of
position p. -/
abbrev hasPosBlock (doc : Document) (p : String) : Prop :=
  ("div_scout_full_" ++ p) ∈ doc.divIds

/-- The position detection: the positions of pos_list, in that order, whose
dedicated div block occurs in the document. -/
def detectPositions (doc : Document) : List String :=
  pos_list.filter (fun p => decide (hasPosBlock doc p))

/-- The inner merge loop, for one statistic: for i, p in enumerate(pos),
look up percentile_dfs[i] (IndexError when out of range), look up the
statistic in that table (KeyError when absent) and insert its percentile
under p.  The counter i starts at the given index. -/
def mergePcts (ds : List PosTable) (stat : String) :
    Nat → List String → List (String × String) →
    Except PyErr (List (String × String))
  | _, [], acc => .ok acc
  | i, p :: rest, acc =>
    match ds[i]? with
    | none => .error .indexError
    | some t =>
      match pyDictGet t stat with
      | none => .error .keyError
      | some e => mergePcts ds stat (i + 1) rest (pyDictInsert acc p e.percentile)

/-- The outer merge loop over the statistics of the loaded first table:
each statistic receives the Per 90 value of the first table and the
percentile mapping built by the inner loop. -/
def mergeRows (ds : List PosTable) (pos : List String) :
    PosTable → Except PyErr (List (String × MergedEntry))
  | [] => .ok []
  | (stat, e) :: rest =>
    match mergePcts ds stat 0 pos [] with
    | .error err => .error err
    | .ok pcts =>
      match mergeRows ds pos rest with
      | .error err => .error err
      | .ok tail => .ok ((stat, ⟨e.per90, pcts⟩) :: tail)

/-- The merge stage: json.loads every stored table, take the first as the
canonical schema (IndexError when percentile_dfs is empty) and run the
outer loop. -/
def mergeData (dfs : List PosTable) (pos : List String) :
    Except PyErr (List (String × MergedEntry)) :=
  let ds := dfs.map jsonLoads
  match ds[0]? with
  | none => .error .indexError
  | some df0 => mergeRows ds pos df0

/-- get_scouting_report: detect positions, read the tables (ValueError when
none), extract the percentile tables and merge.  The name slug only
feeds the fetched URL and does not influence the result beyond the
document itself. -/
def get_scouting_report (idx : String) (nameSlug : String) (doc : Document) :
    Except PyErr Report :=
  let _ := nameSlug
  let pos := detectPositions doc
  match read_html doc.tables with
  | .error e => .error e
  | .ok tables =>
    match mergeData (extractTables tables) pos with
    | .error e => .error e
    | .ok data => .ok ⟨data, pos, idx⟩

/-- One row of the driver DataFrame: the player metadata columns together
with the href of the profile and the document that fetching that href
yields. -/
structure PlayerRow where
  player : String
  age : String
  squad : String
  nation : String
  comp : String
  min : String
  href : String
  doc : Document
deriving Repr

/-- One entry of the persisted reports dict. -/
structure PlayerRecord where
  name : String
  positions : List String
  mins : String
  team : String
  nation : String
  league : String
  age : String
  profile : String
  data : List (String × MergedEntry)
deriving DecidableEq, Repr

/-- The record assembly of the driver loop: metadata columns are copied,
the nation keeps the last space-separated token, the league drops its
first space-separated token, and the profile href is prefixed with the
site origin. -/
def buildRecord (row : PlayerRow) (r : Report) : PlayerRecord :=
  { name := row.player
    positions := r.positions
    mins := row.min
    team := row.squad
    nation := (row.nation.splitOn " ").getLastD ""
    league := " ".intercalate ((row.comp.splitOn " ").drop 1)
    age := row.age
    profile := "https://fbref.com" ++ row.href
    data := r.data }

/-- The second-to-last path segment of the href: the fbref player id. -/
def hrefIdx (href : String) : String :=
  ((href.splitOn "/").reverse.drop 1).headD ""

/-- The last path segment of the href: the name slug. -/
def hrefName (href : String) : String :=
  (href.splitOn "/").getLastD ""

/-- The driver loop: for each player row, run get_scouting_report and
insert the built record keyed by the player id; a ValueError skips the
player, any other exception aborts the whole run before the output file
is written. -/
def assemble : List PlayerRow → Except PyErr (List (String × PlayerRecord))
  | [] => .ok []
  | row :: rest =>
    match get_scouting_report (hrefIdx row.href) (hrefName row.href) row.doc with
    | .ok r =>
      match assemble rest with
      | .error e => .error e
      | .ok tail => .ok ((r.id, buildRecord row r) :: tail)
    | .error .valueError => assemble rest
    | .error e => .error e

/-! ### Concrete sample inputs used by witnesses and counterexamples -/

/-- A raw row carrying the Goals statistic with digit percentile 80. -/
def rowGoals : RawRow := ⟨some "Goals", some "0.5", some "80"⟩

/-- A raw row for the unconditionally excluded statistic Passes Blocked. -/
def rowPB : RawRow := ⟨some "Passes Blocked", some "1.0", some "55"⟩

/-- A MultiIndex table holding the Goals row and a Passes Blocked row. -/
def tabFW : RawTable := ⟨true, [rowGoals, rowPB]⟩

/-- A document with one FW percentile section and the table tabFW. -/
def docFW : Document := ⟨["div_scout_full_FW"], [tabFW]⟩

/-- The report the pipeline produces for docFW. -/
def repFW : Report := ⟨[("Goals", ⟨"0.5", [("FW", "80")]⟩)], ["FW"], "id1"⟩

/-- The first extracted position table of docFW. -/
def dfFW : PosTable := [("Goals", ⟨"0.5", "80"⟩)]

/-- A document whose single percentile table carries the out-of-range
percentile cell 999, which str.isdigit accepts. -/
def doc999 : Document :=
  ⟨["div_scout_full_FW"], [⟨true, [⟨some "Goals", some "0.5", some "999"⟩]⟩]⟩

/-- The report the pipeline produces for doc999. -/
def rep999 : Report := ⟨[("Goals", ⟨"0.5", [("FW", "999")]⟩)], ["FW"], "x9"⟩

/-- A first position table holding only the Goals statistic. -/
def tGoalsOnly : PosTable := [("Goals", ⟨"0.5", "80"⟩)]

/-- A second position table holding only the Shots statistic, so Goals is
absent from it. -/
def tShotsOnly : PosTable := [("Shots", ⟨"1.0", "50"⟩)]

/-- Table A of the worked example, for position FW. -/
def tblA : PosTable := [("Goals", ⟨"0.5", "80"⟩), ("Assists", ⟨"0.3", "60"⟩)]

/-- Table B of the worked example, for position AM; Assists is absent. -/
def tblB : PosTable := [("Goals", ⟨"0.5", "70"⟩), ("Key Passes", ⟨"1.2", "90"⟩)]

/-- The merged output the worked example of the specification expects, with
percentile and rate cells carried as the strings of the source table. -/
def expectedMergedAB : List (String × MergedEntry) :=
  [("Goals", ⟨"0.5", [("FW", "80"), ("AM", "70")]⟩),
   ("Assists", ⟨"0.3", [("FW", "60")]⟩)]

/-- A player row whose page has one table that is not MultiIndex shaped, so
extraction yields zero position tables while read_html succeeds. -/
def rowNoMI : PlayerRow :=
  ⟨"Jo Player", "24", "Team FC", "xx AAA", "xx League One", "900",
   "/en/players/abcd1234/Jo-Player", ⟨[], [⟨false, [rowGoals]⟩]⟩⟩

/-- A player row whose page has no table at all, so read_html raises
ValueError and the driver loop skips the player. -/
def rowNoTables : PlayerRow :=
  ⟨"No Data", "20", "Team B", "yy BBB", "yy League Two", "30",
   "/en/players/efgh5678/No-Data", ⟨[], []⟩⟩

/-- A repeated header row of the source tables: its Percentile cell is the
word Percentile, which str.isdigit rejects, so the row is filtered out. -/
def rowHeaderRepeat : RawRow := ⟨some "Statistic", some "Per 90", some "Percentile"⟩

/-- A document with two position blocks but one percentile table that
extracts to zero usable rows. -/
def docSilent : Document :=
  ⟨["div_scout_full_GK", "div_scout_full_CB"], [⟨true, [rowHeaderRepeat]⟩]⟩

/-- A player row realizing the amended C8 hypotheses: two position blocks,
one extracted table containing the Goals statistic. -/
def rowMismatch : PlayerRow :=
  ⟨"C D", "22", "Team C", "nn NNN", "xx League Z", "1200",
   "/en/players/qqqq1111/C-D",
   ⟨["div_scout_full_GK", "div_scout_full_CB"], [tabFW]⟩⟩

/-- A concrete driver row with a flag-prefixed nation, a country-prefixed
league name and a root-relative href. -/
def rowKDB : PlayerRow :=
  ⟨"Kevin De Bruyne", "29", "Manchester City", "be BEL", "eng Premier League",
   "2320", "/en/players/e46012d4/Kevin-De-Bruyne", docFW⟩

/-- A report value paired with rowKDB in the counterexample. -/
def repKDB : Report := ⟨[], ["AM"], "e46012d4"⟩

end FbrefScrape

deriving instance DecidableEq for Except

namespace FbrefScrape

/-! ### Dictionary lemmas -/

theorem pyDictInsert_mem {β : Type} {d : List (String × β)} {k : String} {v : β}
    {x : String × β} (hx : x ∈ pyDictInsert d k v) : x ∈ d ∨ x = (k, v) := by
  unfold pyDictInsert at hx
  split at hx
  · rcases List.mem_map.mp hx with ⟨kv, hkv, hEq⟩
    by_cases h : kv.1 = k
    · right
      rw [if_pos h] at hEq
      rw [← hEq, h]
    · left
      rw [if_neg h] at hEq
      rw [← hEq]
      exact hkv
  · rcases List.mem_append.mp hx with h | h
    · exact Or.inl h
    · exact Or.inr (List.mem_singleton.mp h)

theorem pyDictInsert_keys {β : Type} (d : List (String × β)) (k : String) (v : β)
    (s : String) :
    s ∈ (pyDictInsert d k v).map Prod.fst ↔ s ∈ d.map Prod.fst ∨ s = k := by
  unfold pyDictInsert
  split
  · rename_i hex
    have hmap : (d.map (fun kv => if kv.1 = k then (kv.1, v) else kv)).map Prod.fst
        = d.map Prod.fst := by
      rw [List.map_map]
      apply List.map_congr_left
      intro kv _
      by_cases h : kv.1 = k <;> simp [h]
    rw [hmap]
    constructor
    · exact Or.inl
    · rintro (h | rfl)
      · exact h
      · rcases hex with ⟨kv, hkv, hk⟩
        exact List.mem_map.mpr ⟨kv, hkv, hk⟩
  · simp [List.mem_append, or_comm]

theorem pyDictInsert_fresh {β : Type} (d : List (String × β)) (k : String) (v : β)
    (hk : k ∉ d.map Prod.fst) : pyDictInsert d k v = d ++ [(k, v)] := by
  unfold pyDictInsert
  rw [if_neg]
  rintro ⟨kv, hkv, hEq⟩
  exact hk (List.mem_map.mpr ⟨kv, hkv, hEq⟩)

theorem pyDictGet_mem {β : Type} {k : String} {v : β} :
    ∀ {d : List (String × β)}, pyDictGet d k = some v → (k, v) ∈ d := by
  intro d
  induction d with
  | nil => intro h; simp [pyDictGet] at h
  | cons kv rest ih =>
    intro h
    unfold pyDictGet at h
    split at h
    · rename_i heq
      rcases kv with ⟨a, b⟩
      simp only at heq
      cases h
      subst heq
      exact List.mem_cons_self _ _
    · exact List.mem_cons_of_mem _ (ih h)

theorem pyDictGet_isSome_iff {β : Type} (k : String) :
    ∀ (d : List (String × β)),
    (pyDictGet d k).isSome = true ↔ k ∈ d.map Prod.fst := by
  intro d
  induction d with
  | nil => simp [pyDictGet]
  | cons kv rest ih =>
    unfold pyDictGet
    by_cases h : kv.1 = k
    · simp [h]
    · simp only [if_neg h, List.map_cons, List.mem_cons, ih]
      constructor
      · exact Or.inr
      · rintro (rfl | hm)
        · exact absurd rfl h
        · exact hm

/-! ### json.loads round-trip lemmas -/

theorem jsonLoadsAux_mem {x : String × Entry} :
    ∀ (l acc : PosTable), x ∈ jsonLoadsAux acc l → x ∈ acc ∨ x ∈ l := by
  intro l
  induction l with
  | nil => intro acc h; exact Or.inl h
  | cons kv rest ih =>
    intro acc h
    rcases ih (pyDictInsert acc kv.1 kv.2) h with h1 | h1
    · rcases pyDictInsert_mem h1 with h2 | h2
      · exact Or.inl h2
      · right
        rw [h2, Prod.mk.eta]
        exact List.mem_cons_self _ _
    · exact Or.inr (List.mem_cons_of_mem _ h1)

theorem jsonLoads_mem {x : String × Entry} {t : PosTable}
    (h : x ∈ jsonLoads t) : x ∈ t := by
  rcases jsonLoadsAux_mem t [] h with h1 | h1
  · cases h1
  · exact h1

theorem jsonLoadsAux_keys (s : String) :
    ∀ (l acc : PosTable),
    s ∈ (jsonLoadsAux acc l).map Prod.fst ↔
      s ∈ acc.map Prod.fst ∨ s ∈ l.map Prod.fst := by
  intro l
  induction l with
  | nil => intro acc; simp [jsonLoadsAux]
  | cons kv rest ih =>
    intro acc
    show s ∈ (jsonLoadsAux (pyDictInsert acc kv.1 kv.2) rest).map Prod.fst ↔ _
    rw [ih, pyDictInsert_keys]
    simp only [List.map_cons, List.mem_cons]
    tauto

theorem jsonLoads_keys (s : String) (t : PosTable) :
    s ∈ (jsonLoads t).map Prod.fst ↔ s ∈ t.map Prod.fst := by
  unfold jsonLoads
  rw [jsonLoadsAux_keys]
  simp

/-! ### Extraction lemmas -/

theorem extractTable_mem {t : RawTable} {s : String} {e : Entry}
    (h : (s, e) ∈ extractTable t) :
    pyIsdigit e.percentile = true ∧ s ≠ "Passes Blocked" := by
  unfold extractTable at h
  rcases List.mem_filterMap.mp h with ⟨r, _, hfr⟩
  rcases r with ⟨os, op, oc⟩
  rcases os with _ | s0
  · exact Option.noConfusion hfr
  rcases op with _ | p0
  · exact Option.noConfusion hfr
  rcases oc with _ | c0
  · exact Option.noConfusion hfr
  dsimp only at hfr
  split at hfr
  · rename_i hcond
    simp only [Option.some.injEq, Prod.mk.injEq] at hfr
    obtain ⟨rfl, rfl⟩ := hfr
    rw [Bool.and_eq_true] at hcond
    rcases hcond with ⟨h1, h2⟩
    refine ⟨h1, ?_⟩
    simpa using h2
  · exact Option.noConfusion hfr

theorem extractTables_mem {tables : List RawTable} {pt : PosTable}
    (h : pt ∈ extractTables tables) : ∃ t, t ∈ tables ∧ pt = extractTable t := by
  unfold extractTables at h
  rcases List.mem_map.mp h with ⟨t, ht, hEq⟩
  exact ⟨t, (List.mem_filter.mp ht).1, hEq.symm⟩

/-! ### Inner merge loop lemmas -/

theorem mergePcts_ok_lookup {ds : List PosTable} {stat : String} :
    ∀ (ps : List String) (i : Nat) (acc res : List (String × String)),
    mergePcts ds stat i ps acc = .ok res →
    ∀ j, j < ps.length →
      ∃ t, ds[i + j]? = some t ∧ (pyDictGet t stat).isSome = true := by
  intro ps
  induction ps with
  | nil => intro i acc res _ j hj; simp at hj
  | cons p rest ih =>
    intro i acc res h j hj
    unfold mergePcts at h
    split at h
    · exact Except.noConfusion h
    · rename_i t hds
      split at h
      · exact Except.noConfusion h
      · rename_i e hget
        match j with
        | 0 =>
          refine ⟨t, by simpa using hds, ?_⟩
          rw [hget]
          rfl
        | j + 1 =>
          have hj2 : j < rest.length := by
            simpa using Nat.lt_of_succ_lt_succ hj
          have := ih (i + 1) _ res h j hj2
          have harith : i + 1 + j = i + (j + 1) := by omega
          rwa [harith] at this

theorem mergePcts_ok_values {ds : List PosTable} {stat : String} :
    ∀ (ps : List String) (i : Nat) (acc res : List (String × String)),
    mergePcts ds stat i ps acc = .ok res →
    ∀ x ∈ res,
      x ∈ acc ∨ ∃ t e, t ∈ ds ∧ pyDictGet t stat = some e ∧ x.2 = e.percentile := by
  intro ps
  induction ps with
  | nil =>
    intro i acc res h x hx
    unfold mergePcts at h
    cases h
    exact Or.inl hx
  | cons p rest ih =>
    intro i acc res h x hx
    unfold mergePcts at h
    split at h
    · exact Except.noConfusion h
    · rename_i t hds
      split at h
      · exact Except.noConfusion h
      · rename_i e hget
        rcases ih (i + 1) _ res h x hx with h1 | h1
        · rcases pyDictInsert_mem h1 with h2 | h2
          · exact Or.inl h2
          · refine Or.inr ⟨t, e, List.mem_iff_getElem?.mpr ⟨i, hds⟩, hget, ?_⟩
            rw [h2]
        · exact Or.inr h1

theorem mergePcts_ok_keys {ds : List PosTable} {stat : String} :
    ∀ (ps : List String) (i : Nat) (acc res : List (String × String)),
    ps.Nodup → (∀ q ∈ ps, q ∉ acc.map Prod.fst) →
    mergePcts ds stat i ps acc = .ok res →
    res.map Prod.fst = acc.map Prod.fst ++ ps := by
  intro ps
  induction ps with
  | nil =>
    intro i acc res _ _ h
    unfold mergePcts at h
    cases h
    simp
  | cons p rest ih =>
    intro i acc res hnd hfresh h
    unfold mergePcts at h
    split at h
    · exact Except.noConfusion h
    · rename_i t hds
      split at h
      · exact Except.noConfusion h
      · rename_i e hget
        have hp : p ∉ acc.map Prod.fst := hfresh p (List.mem_cons_self _ _)
        have hins : pyDictInsert acc p e.percentile = acc ++ [(p, e.percentile)] :=
          pyDictInsert_fresh acc p e.percentile hp
        have hnd2 := List.nodup_cons.mp hnd
        have hfresh2 : ∀ q ∈ rest,
            q ∉ (pyDictInsert acc p e.percentile).map Prod.fst := by
          intro q hq
          rw [hins]
          simp only [List.map_append, List.mem_append]
          rintro (hqa | hqp)
          · exact hfresh q (List.mem_cons_of_mem _ hq) hqa
          · simp only [List.map_cons, List.map_nil, List.mem_singleton] at hqp
            exact hnd2.1 (hqp ▸ hq)
        have := ih (i + 1) _ res hnd2.2 hfresh2 h
        rw [this, hins]
        simp

theorem mergePcts_index_fault {ds : List PosTable} {stat : String} :
    ∀ (ps : List String) (i : Nat) (acc : List (String × String)),
    (∀ j, j < ps.length → ∀ t, ds[i + j]? = some t →
      (pyDictGet t stat).isSome = true) →
    (∃ j, j < ps.length ∧ ds[i + j]? = none) →
    mergePcts ds stat i ps acc = .error .indexError := by
  intro ps
  induction ps with
  | nil =>
    intro i acc _ hex
    rcases hex with ⟨j, hj, _⟩
    simp at hj
  | cons p rest ih =>
    intro i acc hall hex
    cases hds : ds[i]? with
    | none => unfold mergePcts; rw [hds]
    | some t =>
      have hsome : (pyDictGet t stat).isSome = true :=
        hall 0 (by simp) t (by simpa using hds)
      rcases Option.isSome_iff_exists.mp hsome with ⟨e, hget⟩
      simp only [mergePcts, hds, hget]
      apply ih (i + 1)
      · intro j hj t2 ht2
        have harith : i + 1 + j = i + (j + 1) := by omega
        rw [harith] at ht2
        exact hall (j + 1) (by simpa using Nat.succ_lt_succ hj) t2 ht2
      · rcases hex with ⟨j, hj, hnone⟩
        match j with
        | 0 =>
          rw [show i + 0 = i by omega, hds] at hnone
          exact Option.noConfusion hnone
        | j + 1 =>
          refine ⟨j, by simpa using Nat.lt_of_succ_lt_succ hj, ?_⟩
          have harith : i + 1 + j = i + (j + 1) := by omega
          rwa [harith]

/-! ### Outer merge loop lemmas -/

theorem mergeRows_ok_keys {ds : List PosTable} {pos : List String} :
    ∀ (l : PosTable) (d : List (String × MergedEntry)),
    mergeRows ds pos l = .ok d → d.map Prod.fst = l.map Prod.fst := by
  intro l
  induction l with
  | nil => intro d h; cases h; simp
  | cons se rest ih =>
    intro d h
    rcases se with ⟨stat, e⟩
    unfold mergeRows at h
    split at h
    · exact Except.noConfusion h
    · split at h
      · exact Except.noConfusion h
      · rename_i tail htail
        cases h
        simp only [List.map_cons]
        rw [ih tail htail]

theorem mergeRows_ok_entries {ds : List PosTable} {pos : List String} :
    ∀ (l : PosTable) (d : List (String × MergedEntry)),
    mergeRows ds pos l = .ok d →
    ∀ x ∈ d, mergePcts ds x.1 0 pos [] = .ok x.2.percentile := by
  intro l
  induction l with
  | nil => intro d h x hx; cases h; cases hx
  | cons se rest ih =>
    intro d h x hx
    rcases se with ⟨stat, e⟩
    unfold mergeRows at h
    split at h
    · exact Except.noConfusion h
    · rename_i pcts hpcts
      split at h
      · exact Except.noConfusion h
      · rename_i tail htail
        cases h
        rcases List.mem_cons.mp hx with rfl | hx2
        · exact hpcts
        · exact ih tail htail x hx2

theorem mergeRows_ok_all {ds : List PosTable} {pos : List String} :
    ∀ (l : PosTable) (d : List (String × MergedEntry)),
    mergeRows ds pos l = .ok d →
    ∀ x ∈ l, ∃ res, mergePcts ds x.1 0 pos [] = .ok res := by
  intro l
  induction l with
  | nil => intro d h x hx; cases hx
  | cons se rest ih =>
    intro d h x hx
    rcases se with ⟨stat, e⟩
    unfold mergeRows at h
    split at h
    · exact Except.noConfusion h
    · rename_i pcts hpcts
      split at h
      · exact Except.noConfusion h
      · rename_i tail htail
        rcases List.mem_cons.mp hx with rfl | hx2
        · exact ⟨pcts, hpcts⟩
        · exact ih tail htail x hx2

/-! ### Merge stage and pipeline inversion -/

theorem mergeData_ok_elim {dfs : List PosTable} {pos : List String}
    {d : List (String × MergedEntry)} (h : mergeData dfs pos = .ok d) :
    ∃ t0 rest, dfs = t0 :: rest ∧
      mergeRows (dfs.map jsonLoads) pos (jsonLoads t0) = .ok d := by
  cases dfs with
  | nil => simp [mergeData] at h
  | cons t0 rest =>
    refine ⟨t0, rest, rfl, ?_⟩
    simpa [mergeData] using h

theorem get_report_ok_elim {idx nm : String} {doc : Document} {rep : Report}
    (h : get_scouting_report idx nm doc = .ok rep) :
    mergeData (extractTables doc.tables) (detectPositions doc) = .ok rep.data ∧
    rep.positions = detectPositions doc ∧ rep.id = idx := by
  unfold get_scouting_report at h
  by_cases hemp : doc.tables.isEmpty
  · rw [read_html, if_pos hemp] at h
    exact Except.noConfusion h
  · rw [read_html, if_neg hemp] at h
    dsimp only at h
    cases hm : mergeData (extractTables doc.tables) (detectPositions doc) with
    | error e => rw [hm] at h; exact Except.noConfusion h
    | ok data =>
      rw [hm] at h
      cases h
      exact ⟨rfl, rfl, rfl⟩

theorem detectPositions_nodup (doc : Document) : (detectPositions doc).Nodup :=
  List.Nodup.filter _ (by decide)

/-! ### Claim C7 -/

/-- Claim C7: for every parsed document the position detection returns an
ordered subsequence of the fixed list GK, CB, FB, MF, AM, FW in that
canonical order, containing a position exactly when the document has a
div block scoped to that position percentile section, and it returns the
empty sequence (rather than failing) when no position block exists. -/
theorem detect_positions_correct (doc : Document) :
    (detectPositions doc).Sublist pos_list ∧
    (∀ p, p ∈ detectPositions doc ↔ p ∈ pos_list ∧ hasPosBlock doc p) ∧
    ((∀ p ∈ pos_list, ¬ hasPosBlock doc p) → detectPositions doc = []) := by
  refine ⟨List.filter_sublist _, ?_, ?_⟩
  · intro p
    rw [detectPositions, List.mem_filter, decide_eq_true_iff]
  · intro hnone
    rw [detectPositions, List.filter_eq_nil_iff]
    intro p hp
    simpa using hnone p hp

/-- Witness for C7: on a document with no div blocks the detection
evaluates to the empty list, via the theorem itself. -/
theorem detect_positions_correct_witness :
    detectPositions ⟨[], []⟩ = [] :=
  (detect_positions_correct ⟨[], []⟩).2.2 (by decide)

/-! ### Claim C3 -/

/-- Claim C3: whenever the pipeline returns a merged record, the set of
statistic keys of the merged data equals exactly the set of statistic
keys of the first extracted position table. -/
theorem merged_keys_match_first_table {idx nm : String} {doc : Document}
    {rep : Report} {df0 : PosTable}
    (h : get_scouting_report idx nm doc = .ok rep)
    (h0 : (extractTables doc.tables)[0]? = some df0) :
    ∀ s, s ∈ rep.data.map Prod.fst ↔ s ∈ df0.map Prod.fst := by
  obtain ⟨hm, _, _⟩ := get_report_ok_elim h
  obtain ⟨t0, rest, hEq, hrows⟩ := mergeData_ok_elim hm
  rw [hEq, List.getElem?_cons_zero] at h0
  injection h0 with h0
  subst h0
  intro s
  rw [mergeRows_ok_keys _ _ hrows, jsonLoads_keys]

/-- Witness for C3: the concrete document docFW merges successfully and its
merged keys coincide with the keys of its first extracted table. -/
theorem merged_keys_match_first_table_witness :
    ("Goals" ∈ repFW.data.map Prod.fst ↔ "Goals" ∈ dfFW.map Prod.fst) :=
  @merged_keys_match_first_table "id1" "nm" docFW repFW dfFW (by decide) (by decide)
    "Goals"

/-! ### Claim C6 -/

/-- Claim C6: for every input document, a merged record returned by the
pipeline never contains the statistic Passes Blocked among its data keys,
whatever the content of the raw percentile tables. -/
theorem passes_blocked_never_merged {idx nm : String} {doc : Document}
    {rep : Report} (h : get_scouting_report idx nm doc = .ok rep) :
    "Passes Blocked" ∉ rep.data.map Prod.fst := by
  intro hmem
  obtain ⟨hm, _, _⟩ := get_report_ok_elim h
  obtain ⟨t0, rest, hEq, hrows⟩ := mergeData_ok_elim hm
  rw [mergeRows_ok_keys _ _ hrows, jsonLoads_keys] at hmem
  have ht0 : t0 ∈ extractTables doc.tables := by
    rw [hEq]
    exact List.mem_cons_self _ _
  obtain ⟨traw, _, hEt⟩ := extractTables_mem ht0
  obtain ⟨⟨s, e⟩, hse, hfst⟩ := List.mem_map.mp hmem
  rw [hEt] at hse
  exact (extractTable_mem hse).2 hfst

/-- Witness for C6: docFW contains a raw Passes Blocked row, the pipeline
succeeds on it, and the merged keys exclude Passes Blocked. -/
theorem passes_blocked_never_merged_witness :
    "Passes Blocked" ∉ repFW.data.map Prod.fst :=
  @passes_blocked_never_merged "id1" "nm" docFW repFW (by decide)

/-! ### Claim C10 -/

/-- Claim C10: whenever get_scouting_report returns without raising, every
statistic of the merged data carries a percentile entry for every
detected position, in detection order: the per-position copy loop is
unconditional, so success forces the percentile key list of every merged
statistic to equal the full position list. -/
theorem percentile_keys_are_positions {idx nm : String} {doc : Document}
    {rep : Report} (h : get_scouting_report idx nm doc = .ok rep) :
    ∀ x ∈ rep.data, x.2.percentile.map Prod.fst = rep.positions := by
  obtain ⟨hm, hpos, _⟩ := get_report_ok_elim h
  obtain ⟨t0, rest, hEq, hrows⟩ := mergeData_ok_elim hm
  intro x hx
  have hpcts := mergeRows_ok_entries _ _ hrows x hx
  have hk := mergePcts_ok_keys _ 0 [] _ (detectPositions_nodup doc) (by simp) hpcts
  rw [hpos]
  simpa using hk

/-- Witness for C10: on docFW the pipeline succeeds and the percentile keys
of every merged statistic equal the detected position list. -/
theorem percentile_keys_are_positions_witness :
    ([("FW", "80")] : List (String × String)).map Prod.fst = repFW.positions :=
  @percentile_keys_are_positions "id1" "nm" docFW repFW (by decide)
    ("Goals", ⟨"0.5", [("FW", "80")]⟩) (by decide)

/-! ### Claim C4 -/

/-- Counterexample to C4: the pipeline accepts the percentile cell 999 and
copies it into the merged record, yet 999 is not the decimal numeral of
any integer in the range 0 to 100, so the claimed range bound fails. -/
theorem percentile_range_claim_false :
    get_scouting_report "x9" "nm" doc999 = Except.ok rep999 ∧
    (rep999.data.map fun x => x.2.percentile) = [[("FW", "999")]] ∧
    (∀ n : Nat, n < 101 → Nat.repr n ≠ "999") :=
  ⟨by decide, by decide, by decide⟩

/-- Claim C4 as amended: in every merged record every stored percentile
value is a nonempty all-digit string, hence the decimal numeral of some
non-negative integer; the code enforces no upper bound, and on success no
detected position is omitted. -/
theorem merged_percentiles_digit_strings {idx nm : String} {doc : Document}
    {rep : Report} (h : get_scouting_report idx nm doc = .ok rep) :
    ∀ x ∈ rep.data, ∀ pv ∈ x.2.percentile, pyIsdigit pv.2 = true := by
  obtain ⟨hm, _, _⟩ := get_report_ok_elim h
  obtain ⟨t0, rest, hEq, hrows⟩ := mergeData_ok_elim hm
  intro x hx pv hpv
  have hpcts := mergeRows_ok_entries _ _ hrows x hx
  rcases mergePcts_ok_values _ 0 [] _ hpcts pv hpv with h1 | ⟨t, e, ht, hget, hval⟩
  · cases h1
  · obtain ⟨traw, htraw, hjt⟩ := List.mem_map.mp ht
    obtain ⟨trr, _, hEt⟩ := extractTables_mem htraw
    have hmem : (x.1, e) ∈ traw := by
      have := pyDictGet_mem hget
      rw [← hjt] at this
      exact jsonLoads_mem this
    rw [hEt] at hmem
    rw [hval]
    exact (extractTable_mem hmem).1

/-- Witness for C4: on docFW the pipeline succeeds and every merged
percentile value is an all-digit string. -/
theorem merged_percentiles_digit_strings_witness :
    pyIsdigit "80" = true :=
  @merged_percentiles_digit_strings "id1" "nm" docFW repFW (by decide)
    ("Goals", ⟨"0.5", [("FW", "80")]⟩) (by decide) ("FW", "80") (by decide)

/-! ### Claim C1 -/

/-- Counterexample to C1: with two aligned tables whose second table lacks
the canonical statistic Goals, the merge does not silently omit the
second position from the percentile mapping of Goals: it raises a
key-missing fault and produces no merged output at all. -/
theorem merge_omission_claim_false :
    mergeData [tGoalsOnly, tShotsOnly] ["FW", "AM"] = Except.error PyErr.keyError ∧
    mergeData [tGoalsOnly, tShotsOnly] ["FW", "AM"] ≠
      Except.ok [("Goals", ⟨"0.5", [("FW", "80")]⟩)] :=
  ⟨by decide, by decide⟩

/-- Claim C1 as amended: the per-position copy is unconditional, so if some
aligned position table lacks a statistic of the first table, the merge
does not return a merged record for the player: it fails with an
exception (a key-missing fault, or an index fault if the table list runs
out first), aborting the processing of that player. -/
theorem merge_missing_stat_fails {dfs : List PosTable} {pos : List String}
    {s : String} {i : Nat} {t : PosTable}
    (h0 : s ∈ (dfs.headD []).map Prod.fst)
    (h1 : i < pos.length)
    (h2 : dfs[i]? = some t)
    (h3 : s ∉ t.map Prod.fst) :
    (mergeData dfs pos).isOk = false := by
  cases hres : mergeData dfs pos with
  | error e => rfl
  | ok d =>
    exfalso
    obtain ⟨t0, rest, hEq, hrows⟩ := mergeData_ok_elim hres
    have hhead : dfs.headD [] = t0 := by rw [hEq]; rfl
    rw [hhead] at h0
    have hks : s ∈ (jsonLoads t0).map Prod.fst := (jsonLoads_keys s t0).mpr h0
    obtain ⟨x, hx, hxs⟩ := List.mem_map.mp hks
    obtain ⟨res, hres2⟩ := mergeRows_ok_all _ _ hrows x hx
    obtain ⟨t2, ht2, hsome⟩ := mergePcts_ok_lookup _ 0 [] res hres2 i h1
    rw [Nat.zero_add, List.getElem?_map, h2] at ht2
    injection ht2 with ht2
    rw [← ht2, pyDictGet_isSome_iff, jsonLoads_keys, hxs] at hsome
    exact h3 hsome

/-- Witness for C1: the amended theorem applied to the concrete pair of
tables of the counterexample. -/
theorem merge_missing_stat_fails_witness :
    (mergeData [tGoalsOnly, tShotsOnly] ["FW", "AM"]).isOk = false :=
  @merge_missing_stat_fails [tGoalsOnly, tShotsOnly] ["FW", "AM"] "Goals" 1
    tShotsOnly (by decide) (by decide) (by decide) (by decide)

/-! ### Claim C5 -/

/-- Counterexample to C5: on the worked example input the merger does not
produce the claimed output in which Assists omits position AM. -/
theorem worked_example_claim_false :
    mergeData [tblA, tblB] ["FW", "AM"] ≠ Except.ok expectedMergedAB := by
  decide

/-- Claim C5 as amended: on the worked example input the merger raises a
key-missing fault, because the canonical statistic Assists is absent
from Table B and the copy loop looks it up unconditionally; no merged
data is produced for this player. -/
theorem worked_example_raises_key_fault :
    mergeData [tblA, tblB] ["FW", "AM"] = Except.error PyErr.keyError := by
  decide

/-! ### Claim C2 -/

/-- Counterexample to C2: a player whose document yields tables but zero
valid percentile-shaped ones is not skipped; the run aborts with an
index-out-of-range fault and produces no dataset. -/
theorem empty_extraction_not_skipped :
    assemble [rowNoMI] = Except.error PyErr.indexError ∧
    assemble [rowNoMI] ≠ Except.ok [] :=
  ⟨by decide, by decide⟩

/-- Claim C2 as amended: a player whose document has no table at all raises
ValueError and is skipped, the run continuing; but a player whose
document has tables of which none matches the percentile shape (the
extractor output is empty) raises an index-out-of-range fault at the
merge stage that aborts the entire run. -/
theorem empty_extraction_aborts_run (row : PlayerRow) (rest : List PlayerRow) :
    (row.doc.tables = [] → assemble (row :: rest) = assemble rest) ∧
    (row.doc.tables ≠ [] → extractTables row.doc.tables = [] →
      assemble (row :: rest) = Except.error PyErr.indexError) := by
  constructor
  · intro hnil
    have hg : get_scouting_report (hrefIdx row.href) (hrefName row.href) row.doc
        = .error .valueError := by
      unfold get_scouting_report read_html
      rw [hnil]
      rfl
    simp only [assemble, hg]
  · intro hne hext
    have hg : get_scouting_report (hrefIdx row.href) (hrefName row.href) row.doc
        = .error .indexError := by
      unfold get_scouting_report read_html
      rw [if_neg (by simpa [List.isEmpty_iff] using hne)]
      dsimp only
      rw [hext]
      rfl
    simp only [assemble, hg]

/-- Witness for C2: a no-table player is skipped while a player with only
non-percentile tables aborts the run, via the amended theorem. -/
theorem empty_extraction_aborts_run_witness :
    assemble [rowNoTables] = assemble [] ∧
    assemble [rowNoMI] = Except.error PyErr.indexError :=
  ⟨(empty_extraction_aborts_run rowNoTables []).1 rfl,
   (empty_extraction_aborts_run rowNoMI []).2 (by decide) rfl⟩

/-! ### Claim C8 -/

/-- Unfolding of the merge stage on a nonempty table list. -/
theorem mergeData_cons (t0 : PosTable) (rest : List PosTable) (pos : List String) :
    mergeData (t0 :: rest) pos =
      mergeRows ((t0 :: rest).map jsonLoads) pos (jsonLoads t0) := by
  simp [mergeData]

/-- Counterexample to C8: a document with two detected positions and a
single nonempty extracted-table sequence whose first table has no rows
passes through the merge silently, returning an empty merged record
instead of surfacing an index-out-of-range fault. -/
theorem alignment_fault_claim_false :
    (detectPositions docSilent).length = 2 ∧
    (extractTables docSilent.tables).length = 1 ∧
    extractTables docSilent.tables ≠ [] ∧
    get_scouting_report "gk1" "nm" docSilent =
      Except.ok ⟨[], ["GK", "CB"], "gk1"⟩ :=
  ⟨by decide, by decide, by decide, by decide⟩

/-- Claim C8 as amended: when the detected position list is longer than the
nonempty extracted table sequence, the first extracted table holds at
least one statistic, and the first-table statistics occur in every
extracted table, processing surfaces an index-out-of-range fault that
aborts the entire run with no dataset persisted; with an empty first
table the mismatch instead passes silently. -/
theorem alignment_overflow_index_fault (row : PlayerRow) (rest : List PlayerRow)
    (t0 : PosTable) (dfsRest : List PosTable)
    (hEq : extractTables row.doc.tables = t0 :: dfsRest)
    (hne : t0 ≠ [])
    (hcover : ∀ s ∈ t0.map Prod.fst, ∀ t ∈ extractTables row.doc.tables,
      s ∈ t.map Prod.fst)
    (hlen : (extractTables row.doc.tables).length < (detectPositions row.doc).length) :
    assemble (row :: rest) = Except.error PyErr.indexError := by
  have htab : ¬ row.doc.tables.isEmpty = true := by
    intro hemp
    rw [List.isEmpty_iff] at hemp
    rw [hemp] at hEq
    exact List.noConfusion hEq
  obtain ⟨⟨s0, e0⟩, ltail, hjl⟩ : ∃ x l, jsonLoads t0 = x :: l := by
    cases hjl2 : jsonLoads t0 with
    | nil =>
      exfalso
      rcases t0 with _ | ⟨⟨s1, e1⟩, t0rest⟩
      · exact hne rfl
      · have hmem : s1 ∈ (jsonLoads ((s1, e1) :: t0rest)).map Prod.fst :=
          (jsonLoads_keys _ _).mpr (by simp)
        rw [hjl2] at hmem
        cases hmem
    | cons x l => exact ⟨x, l, rfl⟩
  have hs0 : s0 ∈ t0.map Prod.fst := by
    have hmem : s0 ∈ (jsonLoads t0).map Prod.fst := by
      rw [hjl]
      simp
    rwa [jsonLoads_keys] at hmem
  have hpc : mergePcts ((extractTables row.doc.tables).map jsonLoads) s0 0
      (detectPositions row.doc) [] = .error .indexError := by
    apply mergePcts_index_fault
    · intro j _ t ht
      rw [Nat.zero_add, List.getElem?_map] at ht
      cases hdf : (extractTables row.doc.tables)[j]? with
      | none =>
        rw [hdf] at ht
        exact Option.noConfusion ht
      | some traw =>
        rw [hdf] at ht
        injection ht with ht
        have htraw : traw ∈ extractTables row.doc.tables :=
          List.mem_iff_getElem?.mpr ⟨j, hdf⟩
        rw [← ht, pyDictGet_isSome_iff, jsonLoads_keys]
        exact hcover s0 hs0 traw htraw
    · refine ⟨(extractTables row.doc.tables).length, hlen, ?_⟩
      rw [Nat.zero_add]
      apply List.getElem?_eq_none
      simp
  have hmd : mergeData (extractTables row.doc.tables) (detectPositions row.doc)
      = .error .indexError := by
    rw [hEq, mergeData_cons, ← hEq, hjl]
    unfold mergeRows
    rw [hpc]
  have hg : get_scouting_report (hrefIdx row.href) (hrefName row.href) row.doc
      = .error .indexError := by
    unfold get_scouting_report read_html
    rw [if_neg htab]
    dsimp only
    rw [hmd]
  simp only [assemble, hg]

/-- Witness for C8: on the concrete mismatched row the run aborts with an
index fault, via the amended theorem. -/
theorem alignment_overflow_index_fault_witness :
    assemble [rowMismatch] = Except.error PyErr.indexError :=
  alignment_overflow_index_fault rowMismatch [] [("Goals", ⟨"0.5", "80"⟩)] []
    (by decide) (by decide) (by decide) (by decide)

/-! ### Claim C9 -/

/-- Counterexample to C9: the profile field is not passed through
unmodified; the builder prefixes the href with the site origin. -/
theorem profile_passthrough_claim_false :
    (buildRecord rowKDB repKDB).profile ≠ rowKDB.href := by
  decide

/-- Claim C9 as amended: the record builder passes name, minutes, team, age,
positions and merged data through unmodified, reduces the nation to the
last space-separated token of the source string, drops the first
space-separated token of the league string, and prefixes the href with
https fbref com to form the absolute profile URL. -/
theorem build_record_field_map (row : PlayerRow) (r : Report) :
    (buildRecord row r).name = row.player ∧
    (buildRecord row r).mins = row.min ∧
    (buildRecord row r).team = row.squad ∧
    (buildRecord row r).age = row.age ∧
    (buildRecord row r).positions = r.positions ∧
    (buildRecord row r).data = r.data ∧
    (buildRecord row r).nation = (row.nation.splitOn " ").getLastD "" ∧
    (buildRecord row r).league = " ".intercalate ((row.comp.splitOn " ").drop 1) ∧
    (buildRecord row r).profile = "https://fbref.com" ++ row.href :=
  ⟨rfl, rfl, rfl, rfl, rfl, rfl, rfl, rfl, rfl⟩

end FbrefScrape
